import Mathlib

/-!
Shallow embedding of the SignalSDR core: the keyword analyzer
(`src/signalsdr/analyzer.py`), the prospector (`src/signalsdr/prospector.py`),
the scan-eligibility state store (`src/signalsdr/state.py`), and the
dedup/diversity-cap step of the pipeline driver (`src/main.py`, lines
214-239), together with the keyword configuration (`src/signalsdr/config.py`).

Modelling conventions:
* Python strings that are inspected character by character are modelled as
  `List Char`; identifiers passed through unchanged (urls, company names,
  keywords, categories) stay `String`.
* Timestamps are an integer number of seconds since the epoch; the
  `isoformat` / `fromisoformat` round trip is the identity in this model, and
  the float comparison `hours_since >= RESCAN_COOLDOWN_HOURS` is computed
  exactly in seconds.
* Network calls (`search_brave`, `fetch_page`) are modelled by explicit
  parameters carrying their outcome (`Except`), as the spec treats them as
  external collaborators.
-/

namespace SignalSDR

/-! ### Python string primitives on `List Char` -/

/-- Python `str.lower`, per character (adequate for the ASCII keyword sets). -/
def lowerL (l : List Char) : List Char := l.map Char.toLower

/-- Whitespace, as recognised by Python `str.strip` / `\s`. -/
def isWS (c : Char) : Bool := c.isWhitespace

/-- Python `str.lstrip`. -/
def lstrip (l : List Char) : List Char := l.dropWhile isWS

/-- Python `str.rstrip`. -/
def rstrip (l : List Char) : List Char := (l.reverse.dropWhile isWS).reverse

/-- Python `str.strip`. -/
def pyStrip (l : List Char) : List Char := rstrip (lstrip l)

/-- Boolean prefix test on character lists. -/
def startsWithL : List Char → List Char → Bool
  | [], _ => true
  | _ :: _, [] => false
  | a :: as, b :: bs => if a = b then startsWithL as bs else false

/-- Boolean contiguous-substring test on character lists. -/
def isInfixL (needle : List Char) : List Char → Bool
  | [] => startsWithL needle []
  | c :: rest => startsWithL needle (c :: rest) || isInfixL needle rest

/-- Case-insensitive literal substring test: models both
`kw.lower() in line.lower()` and
`re.search(re.escape(kw), line, re.IGNORECASE)`. -/
def containsCI (kw : String) (line : List Char) : Bool :=
  isInfixL (lowerL kw.toList) (lowerL line)

/-- Case-sensitive literal substring test (Python `needle in hay` on strings). -/
def containsSub (needle : String) (hay : List Char) : Bool :=
  isInfixL needle.toList hay

/-- Split a character list on a separator character, keeping empty segments
(Python `str.split(sep)` semantics). -/
def splitOnChar (sep : Char) : List Char → List (List Char)
  | [] => [[]]
  | c :: rest =>
    if c = sep then [] :: splitOnChar sep rest
    else
      match splitOnChar sep rest with
      | l :: ls => (c :: l) :: ls
      | [] => [[c]]

/-- Python `str.splitlines`, restricted to the `\n` terminator (the only
terminator occurring in the texts this development inspects): interior empty
lines are kept, and a trailing terminator does not produce a final empty
line. -/
def pySplitlines (s : String) : List (List Char) :=
  let ls := splitOnChar '\n' s.toList
  match ls.getLast? with
  | some [] => ls.dropLast
  | _ => ls

/-- Python `enumerate(lines, start)`. -/
def pyEnumerate (start : Nat) : List (List Char) → List (Nat × List Char)
  | [] => []
  | l :: ls => (start, l) :: pyEnumerate (start + 1) ls

/-! ### `config.py` -/

/-- High-value hiring keywords (config.py `SIGNAL_KEYWORDS`). -/
def SIGNAL_KEYWORDS : List String :=
  ["VP", "Vice President", "Director", "Head of", "Chief", "CISO", "CTO",
   "CIO", "Security", "AI", "Machine Learning", "Series B", "Series C"]

/-- Roles to ignore (config.py `EXCLUDE_KEYWORDS`). -/
def EXCLUDE_KEYWORDS : List String :=
  ["Intern", "Associate", "Junior", "Entry Level", "Part-time", "Part time",
   "Social Security"]

/-- Prospect category to query template (config.py `PROSPECT_CATEGORIES`,
insertion order preserved as an association list). -/
def PROSPECT_CATEGORIES : List (String × String) :=
  [("new_model",
    "\"{company}\" new model OR new vehicle OR new product launch OR new equipment announced"),
   ("service_challenge",
    "\"{company}\" service operations OR technician shortage OR parts supply OR recall OR warranty"),
   ("ev_transition",
    "\"{company}\" electric vehicle OR EV OR electrification OR battery OR hybrid transition"),
   ("regulatory",
    "\"{company}\" regulation OR compliance OR safety standard OR emissions OR right to repair")]

/-- Keyword to category table for news-page scanning (config.py
`NEWS_PAGE_KEYWORDS`, insertion order preserved). -/
def NEWS_PAGE_KEYWORDS : List (String × String) :=
  [("new model", "new_model"), ("new vehicle", "new_model"),
   ("new product", "new_model"), ("product launch", "new_model"),
   ("all-new", "new_model"), ("next-generation", "new_model"),
   ("unveils", "new_model"), ("introduces", "new_model"),
   ("autonomous", "new_model"),
   ("recall", "service_challenge"), ("warranty", "service_challenge"),
   ("technician", "service_challenge"), ("service network", "service_challenge"),
   ("parts supply", "service_challenge"), ("service center", "service_challenge"),
   ("electric vehicle", "ev_transition"), ("electrification", "ev_transition"),
   ("battery", "ev_transition"), ("EV platform", "ev_transition"),
   ("zero emission", "ev_transition"), ("hybrid", "ev_transition"),
   ("charging", "ev_transition"),
   ("regulation", "regulatory"), ("compliance", "regulatory"),
   ("safety standard", "regulatory"), ("emissions", "regulatory"),
   ("right to repair", "regulatory"), ("NHTSA", "regulatory")]

/-- Max prospect signals per company (config.py). -/
def MAX_PROSPECT_SIGNALS_PER_COMPANY : Nat := 5

/-- Cooldown in hours (state.py `RESCAN_COOLDOWN_HOURS`). -/
def RESCAN_COOLDOWN_HOURS : Int := 24

/-! ### `analyzer.py` -/

/-- A single detected hiring signal (analyzer.py `Signal`). -/
structure Signal where
  keyword : String
  matched_text : List Char
  line_number : Nat
deriving DecidableEq

/-- Result of analyzing a page's text (analyzer.py `AnalysisResult`). -/
structure AnalysisResult where
  url : String
  company : String
  signals : List Signal
deriving DecidableEq

/-- Check if a line matches any exclusion keyword (analyzer.py
`_is_excluded`). -/
def is_excluded (line : List Char) : Bool :=
  EXCLUDE_KEYWORDS.any (fun kw => containsCI kw line)

/-- Python `keywords or SIGNAL_KEYWORDS`: both `None` and the empty list are
falsy and fall back to the default keyword list. -/
def keywordsOrDefault : Option (List String) → List String
  | some kws => if kws.isEmpty then SIGNAL_KEYWORDS else kws
  | none => SIGNAL_KEYWORDS

/-- Line loop of `analyze_text`: skip blank lines, skip excluded lines, then
append one signal per matching keyword (in keyword-list order) carrying the
trimmed line capped at 200 characters and the 1-based line number. -/
def analyzeLines (kws : List String) : List (Nat × List Char) → List Signal
  | [] => []
  | (n, line) :: rest =>
    if pyStrip line = [] then analyzeLines kws rest
    else if is_excluded line then analyzeLines kws rest
    else
      (kws.filter (fun kw => containsCI kw line)).map
        (fun kw => ⟨kw, (pyStrip line).take 200, n⟩)
      ++ analyzeLines kws rest

/-- Scan text for hiring signal keywords (analyzer.py `analyze_text`). -/
def analyze_text (text url company : String)
    (keywords : Option (List String)) : AnalysisResult :=
  let kws := keywordsOrDefault keywords
  ⟨url, company, analyzeLines kws (pyEnumerate 1 (pySplitlines text))⟩

/-! ### `prospector.py` -/

/-- A single prospect signal (prospector.py `ProspectSignal`). -/
structure ProspectSignal where
  category : String
  headline : List Char
  snippet : List Char
  source_url : String
deriving DecidableEq

/-- Aggregated prospect signals for one company (prospector.py
`ProspectResult`). -/
structure ProspectResult where
  company : String
  domain : String
  signals : List ProspectSignal
  success : Bool
  error : String
deriving DecidableEq

/-- A raw Brave Search result item, as returned by `search_brave`: missing
keys default to the empty string. -/
structure BraveItem where
  title : String
  description : String
  url : String
deriving DecidableEq

/-- One category's contribution to `prospect_company`: results whose URL
contains the company's own domain as a substring are skipped; the snippet is
the description capped at 300 characters. -/
def braveSignalsFor (domain cat : String) (items : List BraveItem) :
    List ProspectSignal :=
  items.filterMap (fun item =>
    if containsSub domain item.url.toList then none
    else some ⟨cat, item.title.toList, item.description.toList.take 300,
               item.url⟩)

/-- Python `categories or list(PROSPECT_CATEGORIES.keys())`: `None` and the
empty list both fall back to all configured categories. -/
def categoriesOrDefault : Option (List String) → List String
  | some cats =>
    if cats.isEmpty then PROSPECT_CATEGORIES.map (fun p => p.1) else cats
  | none => PROSPECT_CATEGORIES.map (fun p => p.1)

/-- Search for prospect signals via Brave Search (prospector.py
`prospect_company`).  The network is modelled by `provider`, which maps a
query string to the outcome of `search_brave` (`.error` models a
`requests.RequestException`, on which the loop continues with the next
category); `api_key` models `api_key or os.environ.get("BRAVE_API_KEY")`
already resolved; the `time.sleep` rate limiting has no observable effect on
the result and is omitted. -/
def prospect_company (provider : String → Except String (List BraveItem))
    (company domain : String) (categories : Option (List String))
    (api_key : Option String) : ProspectResult :=
  match api_key with
  | none => ⟨company, domain, [], false, "BRAVE_API_KEY not set"⟩
  | some _ =>
    let cats := categoriesOrDefault categories
    let signals := cats.flatMap (fun cat =>
      match List.lookup cat PROSPECT_CATEGORIES with
      | none => []
      | some template =>
        if template = "" then []
        else
          match provider (template.replace "{company}" company) with
          | .error _ => []
          | .ok items => braveSignalsFor domain cat items)
    ⟨company, domain, signals, true, ""⟩

/-- Matches the regex alternative `kWh/100\s?km` at the head of the list. -/
def kwhAt : List Char → Bool
  | 'k' :: 'W' :: 'h' :: '/' :: '1' :: '0' :: '0' :: rest =>
    (match rest with
     | 'k' :: 'm' :: _ => true
     | c :: 'k' :: 'm' :: _ => isWS c
     | _ => false)
  | _ => false

/-- Models `re.search(r"kWh/100\s?km|g/km|CO₂|WLTP|NEDC", line)`. -/
def hasEmissionPattern (l : List Char) : Bool :=
  l.tails.any kwhAt || containsSub "g/km" l || containsSub "CO₂" l ||
  containsSub "WLTP" l || containsSub "NEDC" l

/-- Comma-separated tag-list filter of `scrape_news_page`: the stripped line
contains a comma, and splitting on commas gives at least two segments each of
stripped length at most 30. -/
def isTagList (stripped : List Char) : Bool :=
  if ',' ∈ stripped then
    let segments := (splitOnChar ',' stripped).map pyStrip
    decide (2 ≤ segments.length) && segments.all (fun s => s.length ≤ 30)
  else false

/-- Generic site-chrome phrases skipped by `scrape_news_page`. -/
def CHROME_PHRASES : List String :=
  ["browse below", "download the right", "cookie", "privacy policy",
   "terms of use", "all rights reserved", "subscribe to"]

/-- Chrome-phrase filter: any phrase occurs in the lowercased stripped line. -/
def isChrome (stripped : List Char) : Bool :=
  CHROME_PHRASES.any (fun p => containsSub p (lowerL stripped))

/-- Inner keyword loop of `scrape_news_page` for one surviving line.  The
Python `continue` on an already-seen headline continues the *keyword* loop;
since the headline stays seen, no later keyword can emit either, so the line
then contributes nothing. -/
def scanKeywords (news_url : String) (stripped : List Char)
    (seen : List (List Char)) :
    List (String × String) → Option ProspectSignal × List (List Char)
  | [] => (none, seen)
  | (keyword, category) :: rest =>
    if containsCI keyword stripped then
      let headline := stripped.take 150
      if headline ∈ seen then scanKeywords news_url stripped seen rest
      else (some ⟨category, headline, stripped.take 300, news_url⟩,
            headline :: seen)
    else scanKeywords news_url stripped seen rest

/-- Line loop of `scrape_news_page`: skip blank or short lines, tag lists,
emissions disclaimers, and site chrome; then match the keyword table. -/
def scrapeLines (news_url : String) (seen : List (List Char)) :
    List (List Char) → List ProspectSignal
  | [] => []
  | line :: rest =>
    let stripped := pyStrip line
    if stripped = [] ∨ stripped.length < 25 then
      scrapeLines news_url seen rest
    else if isTagList stripped then scrapeLines news_url seen rest
    else if hasEmissionPattern stripped then scrapeLines news_url seen rest
    else if isChrome stripped then scrapeLines news_url seen rest
    else
      match scanKeywords news_url stripped seen NEWS_PAGE_KEYWORDS with
      | (some s, seenNew) => s :: scrapeLines news_url seenNew rest
      | (none, seenNew) => scrapeLines news_url seenNew rest

/-- Scan a company's news page for prospect keywords (prospector.py
`scrape_news_page`).  The `fetch_page` call is modelled by `fetched`:
`.error` carries the fetch error reason, `.ok` the extracted page text. -/
def scrape_news_page (fetched : Except String String)
    (company domain news_url : String) : ProspectResult :=
  match fetched with
  | .error err =>
    ⟨company, domain, [], false, "Failed to fetch news page: " ++ err⟩
  | .ok text =>
    ⟨company, domain, scrapeLines news_url [] (pySplitlines text), true, ""⟩

/-! ### `state.py` -/

/-- A signal dict passed to `record_scan` (keys are optional, matching
`dict.get` access). -/
structure SigDict where
  keyword : Option String
  matched_text : Option String
  category : Option String
  headline : Option String
  snippet : Option String
deriving DecidableEq

/-- A history entry appended to a company record. -/
structure SignalRec where
  date : Int
  type : String
  details : String
deriving DecidableEq

/-- One company record of `db.json` (the two scan-type timestamps live under
the dynamic keys `last_scan` / `last_prospect_scan`; an absent key is
`none`). -/
structure Company where
  id : String
  name : String
  domain : String
  last_scan : Option Int
  last_prospect_scan : Option Int
  status : String
  signals : List SignalRec
deriving DecidableEq

/-- The whole state database document. -/
structure Db where
  companies : List Company
deriving DecidableEq

/-- Calendar date of an instant (models `now.isoformat()[:10]`): the day
number since the epoch stands in for the date string. -/
def isoDate (now : Int) : Int := now / 86400

/-- History entries built by `record_scan`, one per signal dict. -/
def mkSignalRecords (scan_type : String) (now : Int)
    (signals : List SigDict) : List SignalRec :=
  if scan_type = "prospect" then
    signals.map (fun s =>
      ⟨isoDate now, "prospect_" ++ s.category.getD "unknown",
       s.headline.getD (s.snippet.getD "unknown")⟩)
  else
    signals.map (fun s =>
      ⟨isoDate now, "hiring",
       "Found role: " ++ s.matched_text.getD (s.keyword.getD "unknown")⟩)

/-- First record whose domain matches (the lookup loop shared by
`should_scan` and `record_scan`). -/
def findCompany (domain : String) : List Company → Option Company
  | [] => none
  | c :: rest => if c.domain = domain then some c else findCompany domain rest

/-- The scan-type-specific timestamp:
`ts_key = "last_scan" if scan_type == "hiring" else "last_prospect_scan"`. -/
def tsGet (scan_type : String) (c : Company) : Option Int :=
  if scan_type = "hiring" then c.last_scan else c.last_prospect_scan

/-- Check if a company should be scanned based on cooldown (state.py
`should_scan`), over an already-loaded database and an explicit current
instant.  The Python float comparison `hours_since >= RESCAN_COOLDOWN_HOURS`
is computed exactly in seconds; the falsy check `if not last_scan` is the
absent-key check in this model (a stored ISO timestamp string is never
empty). -/
def should_scan (domain : String) (db : Db) (scan_type : String)
    (now : Int) : Bool :=
  match findCompany domain db.companies with
  | none => true
  | some c =>
    match tsGet scan_type c with
    | none => true
    | some last => decide (now - last ≥ RESCAN_COOLDOWN_HOURS * 3600)

/-- State of the underlying `db.json` file.  `corrupt` models a file that
exists but whose content `json.load` rejects, carrying the parse error. -/
inductive FileState where
  | missing : FileState
  | corrupt : String → FileState
  | valid : Db → FileState
deriving DecidableEq

/-- Load the state database (state.py `_load_db`): a missing file yields the
empty store; on a file that exists, `json.load` either returns the parsed
document or raises (modelled as `.error`), and `_load_db` does not catch. -/
def load_db : FileState → Except String Db
  | .missing => .ok ⟨[]⟩
  | .corrupt msg => .error msg
  | .valid db => .ok db

/-- `should_scan` including the store read, with read failures surfaced to
the caller. -/
def should_scan_file (domain : String) (fs : FileState) (scan_type : String)
    (now : Int) : Except String Bool :=
  (load_db fs).map (fun db => should_scan domain db scan_type now)

/-- Zero-padded sequential identifier, models `f"c_{n:03d}"`. -/
def pad3 (n : Nat) : String :=
  if n < 10 then "00" ++ toString n
  else if n < 100 then "0" ++ toString n
  else toString n

/-- Update of an existing record inside `record_scan`: set the
scan-type-specific timestamp to now, overwrite the status, and, only when
`signals` is non-empty, extend the history with the new entries. -/
def updateCompany (scan_type : String) (now : Int) (signals : List SigDict)
    (recs : List SignalRec) (c : Company) : Company :=
  let c1 := if scan_type = "hiring" then {c with last_scan := some now}
            else {c with last_prospect_scan := some now}
  let c2 := {c1 with
    status := if signals.isEmpty then "no_signal" else "signal_found"}
  if signals.isEmpty then c2 else {c2 with signals := c2.signals ++ recs}

/-- Apply `f` to the first record with the given domain, or report that none
exists (the find-and-mutate loop of `record_scan`). -/
def updateFirst (domain : String) (f : Company → Company) :
    List Company → Option (List Company)
  | [] => none
  | c :: rest =>
    if c.domain = domain then some (f c :: rest)
    else (updateFirst domain f rest).map (fun cs => c :: cs)

/-- The fresh record `record_scan` appends for a never-seen domain (`count`
is the record count before the append). -/
def newCompany (domain name scan_type : String) (now : Int)
    (signals : List SigDict) (recs : List SignalRec) (count : Nat) :
    Company :=
  { id := "c_" ++ pad3 (count + 1)
    name := name
    domain := domain
    last_scan := if scan_type = "hiring" then some now else none
    last_prospect_scan := if scan_type = "hiring" then none else some now
    status := if signals.isEmpty then "no_signal" else "signal_found"
    signals := recs }

/-- The company-list transformation of `record_scan`: update the first
matching record in place, or append a fresh one. -/
def recordCompanies (domain : String) (f : Company → Company)
    (entry : Company) (l : List Company) : List Company :=
  match updateFirst domain f l with
  | some cs => cs
  | none => l ++ [entry]

/-- Record a completed scan (state.py `record_scan`), over an already-loaded
database and an explicit current instant; the `_save_db` write-back returns
the updated document. -/
def record_scan (domain name : String) (signals : List SigDict) (db : Db)
    (scan_type : String) (now : Int) : Db :=
  let recs := mkSignalRecords scan_type now signals
  ⟨recordCompanies domain (updateCompany scan_type now signals recs)
    (newCompany domain name scan_type now signals recs db.companies.length)
    db.companies⟩

/-! ### `main.py`, prospect dedup and diversity cap (lines 214-239) -/

/-- Deduplicate by headline, keeping the first occurrence (the `seen` set is
modelled as a list with membership). -/
def dedupByHeadline (seen : List (List Char)) :
    List ProspectSignal → List ProspectSignal
  | [] => []
  | s :: rest =>
    if s.headline ∈ seen then dedupByHeadline seen rest
    else s :: dedupByHeadline (s.headline :: seen) rest

/-- Category-diversity pass: the first signal of each not-yet-seen category
goes to the left (diverse) list, in encounter order; the rest go to the
right (remaining) list. -/
def diversitySplit (seenCats : List String) :
    List ProspectSignal → List ProspectSignal × List ProspectSignal
  | [] => ([], [])
  | s :: rest =>
    if s.category ∈ seenCats then
      let (d, r) := diversitySplit seenCats rest
      (d, s :: r)
    else
      let (d, r) := diversitySplit (s.category :: seenCats) rest
      (s :: d, r)

/-- The dedup-then-cap step of `run_prospect_pipeline`, parameterised by the
cap (`MAX_PROSPECT_SIGNALS_PER_COMPANY` in the driver): dedup by headline;
if the deduplicated count exceeds the cap, concatenate the diverse and
remaining lists and truncate to the cap, else return the deduplicated list
unchanged. -/
def reduceSignals (signals : List ProspectSignal) (max_count : Nat) :
    List ProspectSignal :=
  let deduped := dedupByHeadline [] signals
  if max_count < deduped.length then
    let (d, r) := diversitySplit [] deduped
    (d ++ r).take max_count
  else deduped

/-- Modelled from the spec's section 4.2 algorithm wording, for comparison
against `analyze_text`: split the text into lines; for each non-blank,
non-excluded line (1-indexed), emit one signal per keyword that matches the
line, carrying the keyword, the trimmed line capped to 200 characters, and
the line number. -/
def specExtract (text : String) (kws : List String) : List Signal :=
  (pyEnumerate 1 (pySplitlines text)).flatMap (fun p =>
    if pyStrip p.2 = [] then []
    else if is_excluded p.2 then []
    else (kws.filter (fun kw => containsCI kw p.2)).map
      (fun kw => ⟨kw, (pyStrip p.2).take 200, p.1⟩))

/-! ### Helper lemmas on the string primitives -/

theorem dropWhile_suffix_exists (p : Char → Bool) (l : List Char) :
    ∃ t, t ++ l.dropWhile p = l := by
  induction l with
  | nil => exact ⟨[], rfl⟩
  | cons c rest ih =>
    cases hpc : p c with
    | true =>
      obtain ⟨t, ht⟩ := ih
      exact ⟨c :: t, by simp [List.dropWhile_cons, hpc, ht]⟩
    | false => exact ⟨[], by simp [List.dropWhile_cons, hpc]⟩

theorem head_dropWhile_false (p : Char → Bool) :
    ∀ (l : List Char) (h0 : Char) (t : List Char),
      l.dropWhile p = h0 :: t → p h0 = false := by
  intro l
  induction l with
  | nil => intro h0 t hht; simp at hht
  | cons c rest ih =>
    intro h0 t hht
    cases hpc : p c with
    | true => exact ih h0 t (by simpa [List.dropWhile_cons, hpc] using hht)
    | false =>
      rw [List.dropWhile_cons, if_neg (by simp [hpc])] at hht
      cases hht
      exact hpc

theorem rstrip_part (l : List Char) : ∃ u, rstrip l ++ u = l := by
  obtain ⟨t, ht⟩ := dropWhile_suffix_exists isWS l.reverse
  refine ⟨t.reverse, ?_⟩
  have h2 := congrArg List.reverse ht
  simpa [rstrip, List.reverse_append] using h2

theorem rstrip_head (l : List Char) (h0 : Char) (t : List Char)
    (h : rstrip l = h0 :: t) : ∃ u, l = h0 :: (t ++ u) := by
  obtain ⟨u, hu⟩ := rstrip_part l
  exact ⟨u, by rw [← hu, h]; simp⟩

theorem pyStrip_head_not_ws (l : List Char) (h0 : Char) (t : List Char)
    (h : pyStrip l = h0 :: t) : isWS h0 = false := by
  obtain ⟨u, hu⟩ := rstrip_head (lstrip l) h0 t h
  exact head_dropWhile_false isWS l h0 (t ++ u) hu

theorem dropWhile_ne_nil (p : Char → Bool) :
    ∀ (l : List Char) (c : Char), c ∈ l → p c = false →
      l.dropWhile p ≠ [] := by
  intro l
  induction l with
  | nil => intro c hc; simp at hc
  | cons a rest ih =>
    intro c hc hpc
    cases hpa : p a with
    | false => simp [List.dropWhile_cons, hpa]
    | true =>
      rcases List.mem_cons.mp hc with rfl | hm
      · rw [hpa] at hpc; cases hpc
      · simpa [List.dropWhile_cons, hpa] using ih c hm hpc

theorem rstrip_ne_nil (l : List Char) (c : Char) (hc : c ∈ l)
    (hpc : isWS c = false) : rstrip l ≠ [] := by
  have h := dropWhile_ne_nil isWS l.reverse c (List.mem_reverse.mpr hc) hpc
  simpa [rstrip] using h

theorem pyStrip_take_ne_nil (l : List Char) (n : Nat) (hn : 0 < n)
    (h : pyStrip l ≠ []) : pyStrip ((pyStrip l).take n) ≠ [] := by
  obtain ⟨h0, t, ht⟩ : ∃ h0 t, pyStrip l = h0 :: t := by
    cases hh : pyStrip l with
    | nil => exact absurd hh h
    | cons a b => exact ⟨a, b, rfl⟩
  have hws : isWS h0 = false := pyStrip_head_not_ws l h0 t ht
  obtain ⟨m, rfl⟩ : ∃ m, n = m + 1 := ⟨n - 1, by omega⟩
  rw [ht, List.take_succ_cons]
  have hl : lstrip (h0 :: t.take m) = h0 :: t.take m := by
    simp [lstrip, List.dropWhile_cons, hws]
  unfold pyStrip
  rw [hl]
  exact rstrip_ne_nil _ h0 (List.mem_cons_self _ _) hws

/-! ### Helper lemmas on the analyzer -/

theorem mem_analyzeLines (kws : List String) :
    ∀ (items : List (Nat × List Char)) (s : Signal),
      s ∈ analyzeLines kws items →
      ∃ p ∈ items, s.line_number = p.1 ∧
        s.matched_text = (pyStrip p.2).take 200 ∧ pyStrip p.2 ≠ [] ∧
        is_excluded p.2 = false ∧ s.keyword ∈ kws := by
  intro items
  induction items with
  | nil => intro s hs; simp [analyzeLines] at hs
  | cons p rest ih =>
    obtain ⟨n, line⟩ := p
    intro s hs
    by_cases h1 : pyStrip line = []
    · rw [analyzeLines, if_pos h1] at hs
      obtain ⟨q, hq, hrest⟩ := ih s hs
      exact ⟨q, List.mem_cons_of_mem _ hq, hrest⟩
    · by_cases h2 : is_excluded line = true
      · rw [analyzeLines, if_neg h1, if_pos h2] at hs
        obtain ⟨q, hq, hrest⟩ := ih s hs
        exact ⟨q, List.mem_cons_of_mem _ hq, hrest⟩
      · rw [analyzeLines, if_neg h1, if_neg h2] at hs
        rcases List.mem_append.mp hs with hL | hR
        · obtain ⟨kw, hkw, rfl⟩ := List.mem_map.mp hL
          obtain ⟨hkmem, _⟩ := List.mem_filter.mp hkw
          exact ⟨(n, line), List.mem_cons_self _ _, rfl, rfl, h1,
            Bool.eq_false_iff.mpr h2, hkmem⟩
        · obtain ⟨q, hq, hrest⟩ := ih s hR
          exact ⟨q, List.mem_cons_of_mem _ hq, hrest⟩

theorem pyEnumerate_lb :
    ∀ (ls : List (List Char)) (k : Nat) (p : Nat × List Char),
      p ∈ pyEnumerate k ls → k ≤ p.1 := by
  intro ls
  induction ls with
  | nil => intro k p hp; simp [pyEnumerate] at hp
  | cons l rest ih =>
    intro k p hp
    rcases List.mem_cons.mp hp with rfl | hm
    · exact le_refl k
    · exact Nat.le_of_succ_le (ih (k + 1) p hm)

theorem pyEnumerate_fun :
    ∀ (ls : List (List Char)) (k n : Nat) (a b : List Char),
      (n, a) ∈ pyEnumerate k ls → (n, b) ∈ pyEnumerate k ls → a = b := by
  intro ls
  induction ls with
  | nil => intro k n a b ha; simp [pyEnumerate] at ha
  | cons l rest ih =>
    intro k n a b ha hb
    rcases List.mem_cons.mp ha with h1 | h1 <;>
      rcases List.mem_cons.mp hb with h2 | h2
    · rw [Prod.mk.injEq] at h1 h2
      rw [h1.2, h2.2]
    · rw [Prod.mk.injEq] at h1
      have hlb := pyEnumerate_lb rest (k + 1) (n, b) h2
      omega
    · rw [Prod.mk.injEq] at h2
      have hlb := pyEnumerate_lb rest (k + 1) (n, a) h1
      omega
    · exact ih (k + 1) n a b h1 h2

theorem analyzeLines_eq_flatMap (kws : List String) :
    ∀ items : List (Nat × List Char),
      analyzeLines kws items = items.flatMap (fun p =>
        if pyStrip p.2 = [] then []
        else if is_excluded p.2 then []
        else (kws.filter (fun kw => containsCI kw p.2)).map
          (fun kw => ⟨kw, (pyStrip p.2).take 200, p.1⟩)) := by
  intro items
  induction items with
  | nil => rfl
  | cons p rest ih =>
    obtain ⟨n, line⟩ := p
    by_cases h1 : pyStrip line = []
    · simp [analyzeLines, List.flatMap_cons, h1, ih]
    · by_cases h2 : is_excluded line = true
      · simp [analyzeLines, List.flatMap_cons, h1, h2, ih]
      · simp [analyzeLines, List.flatMap_cons, h1, h2, ih]

/-! ### Claims C1 - C4 -/

/-- C1 (counterexample): for a store whose underlying file exists but holds
corrupt, unparseable content, `should_scan` (through the store read) does
not behave as if the store were empty — it does not return `true`, the
parse exception propagates instead. -/
theorem corrupt_store_raises :
    should_scan_file "acme.com" (FileState.corrupt "Expecting value")
      "hiring" 0 ≠ Except.ok true := by
  simp [should_scan_file, load_db, Except.map]

/-- C1 (amended): a *missing* underlying store is treated as an empty store
on read — `should_scan` returns true for every domain and scan type and no
exception propagates — while a store with *corrupt* content propagates the
`json.load` parse error to the caller. -/
theorem store_read_failure_semantics :
    (∀ (domain scan_type : String) (now : Int),
      should_scan_file domain FileState.missing scan_type now =
        Except.ok true)
    ∧ (∀ (domain scan_type msg : String) (now : Int),
      should_scan_file domain (FileState.corrupt msg) scan_type now =
        Except.error msg) :=
  ⟨fun _ _ _ => rfl, fun _ _ _ _ => rfl⟩

/-- C2 (counterexample): calling `analyze_text` with an empty keyword set on
the text "VP" yields a non-empty signal sequence — the empty list is falsy
in Python, so `keywords or SIGNAL_KEYWORDS` silently substitutes the default
keyword list. -/
theorem empty_keywords_nonempty_result :
    (analyze_text "VP" "u" "c" (some [])).signals ≠ [] := by decide

/-- C2 (amended): calling `analyze_text` with an empty keyword set is not an
error, but it does not yield an empty result either: the empty list falls
back to the default keyword list, so the result is exactly the result for
the default keywords. -/
theorem empty_keywords_fall_back (text url company : String) :
    analyze_text text url company (some []) =
      analyze_text text url company none := rfl

/-- C3: for every input text, `analyze_text` emits no signal from any line
for which `_is_excluded` is true (the lowercased line contains an exclusion
keyword as a case-insensitive substring), even when that line also contains
inclusion keywords. -/
theorem excluded_line_emits_nothing
    (text url company : String) (keywords : Option (List String))
    (n : Nat) (line : List Char)
    (hmem : (n, line) ∈ pyEnumerate 1 (pySplitlines text))
    (hexcl : is_excluded line = true) :
    ((analyze_text text url company keywords).signals.all
      (fun s => s.line_number != n)) = true := by
  rw [List.all_eq_true]
  intro s hs
  simp only [bne_iff_ne, ne_eq, decide_eq_true_eq]
  intro heq
  obtain ⟨p, hp, hnum, _, _, hnx, _⟩ :=
    mem_analyzeLines (keywordsOrDefault keywords)
      (pyEnumerate 1 (pySplitlines text)) s hs
  have hpn : p = (n, p.2) := by
    rw [← heq, hnum]
  rw [hpn] at hp
  have hsame : p.2 = line := pyEnumerate_fun _ 1 n p.2 line hp hmem
  rw [hsame] at hnx
  rw [hexcl] at hnx
  cases hnx

/-- C3 witness: on a concrete text whose second line matches the exclusion
keyword "Intern", no emitted signal carries line number 2. -/
theorem excluded_line_emits_nothing_witness :
    ((analyze_text "VP here\nIntern wanted" "u" "c" none).signals.all
      (fun s => s.line_number != 2)) = true :=
  excluded_line_emits_nothing "VP here\nIntern wanted" "u" "c" none 2
    ("Intern wanted".toList) (by decide) (by decide)

/-- C4: `analyze_text` realises the line-splitting algorithm — for each
non-blank, non-excluded 1-indexed line it emits exactly one signal per
matching keyword of the keyword list, carrying the keyword, the trimmed
line capped to 200 characters, and the line number — and on the spec's
example text with keywords ["VP", "Head of", "AI"] it yields exactly the
three stated signals (1 on line 1, 0 on the excluded line 2, 2 on line 3). -/
theorem analyze_text_algorithm_and_example :
    (∀ (text url company : String) (kws : List String), kws ≠ [] →
      (analyze_text text url company (some kws)).signals =
        specExtract text kws)
    ∧ (analyze_text "Now hiring: VP of Security\nIntern wanted\nHead of AI"
        "u" "c" (some ["VP", "Head of", "AI"])).signals =
      [⟨"VP", "Now hiring: VP of Security".toList, 1⟩,
       ⟨"Head of", "Head of AI".toList, 3⟩,
       ⟨"AI", "Head of AI".toList, 3⟩] := by
  constructor
  · intro text url company kws hk
    have hkw : keywordsOrDefault (some kws) = kws := by
      cases kws with
      | nil => exact absurd rfl hk
      | cons a l => rfl
    show analyzeLines (keywordsOrDefault (some kws)) _ = _
    rw [hkw, analyzeLines_eq_flatMap]
    rfl
  · decide

/-- C4 witness: the algorithm characterisation applied to the spec's own
example keyword list. -/
theorem analyze_text_algorithm_and_example_witness :
    (analyze_text "Head of AI" "u" "c" (some ["AI"])).signals =
      specExtract "Head of AI" ["AI"] :=
  analyze_text_algorithm_and_example.1 "Head of AI" "u" "c" ["AI"]
    (by decide)

/-! ### Helper lemmas on the state store -/

theorem updateCompany_fields (st : String) (now : Int) (sigs : List SigDict)
    (recs : List SignalRec) (c : Company) :
    (updateCompany st now sigs recs c).id = c.id ∧
    (updateCompany st now sigs recs c).name = c.name ∧
    (updateCompany st now sigs recs c).domain = c.domain ∧
    (updateCompany st now sigs recs c).signals =
      c.signals ++ (if sigs.isEmpty then [] else recs) := by
  by_cases h : st = "hiring" <;> by_cases h2 : sigs.isEmpty <;>
    simp [updateCompany, h, h2]

theorem tsGet_updateCompany_same (st : String) (now : Int)
    (sigs : List SigDict) (recs : List SignalRec) (c : Company) :
    tsGet st (updateCompany st now sigs recs c) = some now := by
  by_cases h : st = "hiring" <;> by_cases h2 : sigs.isEmpty <;>
    simp [updateCompany, tsGet, h, h2]

theorem tsGet_prospect_update_hiring (now : Int) (sigs : List SigDict)
    (recs : List SignalRec) (c : Company) :
    tsGet "prospect" (updateCompany "hiring" now sigs recs c) =
      tsGet "prospect" c := by
  by_cases h2 : sigs.isEmpty <;> simp [updateCompany, tsGet, h2]

theorem tsGet_hiring_update_prospect (now : Int) (sigs : List SigDict)
    (recs : List SignalRec) (c : Company) :
    tsGet "hiring" (updateCompany "prospect" now sigs recs c) =
      tsGet "hiring" c := by
  by_cases h2 : sigs.isEmpty <;> simp [updateCompany, tsGet, h2]

theorem tsGet_newCompany_same (domain name st : String) (now : Int)
    (sigs : List SigDict) (recs : List SignalRec) (k : Nat) :
    tsGet st (newCompany domain name st now sigs recs k) = some now := by
  by_cases h : st = "hiring" <;> simp [newCompany, tsGet, h]

theorem tsGet_prospect_new_hiring (domain name : String) (now : Int)
    (sigs : List SigDict) (recs : List SignalRec) (k : Nat) :
    tsGet "prospect" (newCompany domain name "hiring" now sigs recs k) =
      none := by
  simp [newCompany, tsGet]

theorem tsGet_hiring_new_prospect (domain name : String) (now : Int)
    (sigs : List SigDict) (recs : List SignalRec) (k : Nat) :
    tsGet "hiring" (newCompany domain name "prospect" now sigs recs k) =
      none := by
  simp [newCompany, tsGet]

theorem recordCompanies_cons_eq (domain : String) (f : Company → Company)
    (entry c : Company) (rest : List Company) (hc : c.domain = domain) :
    recordCompanies domain f entry (c :: rest) = f c :: rest := by
  unfold recordCompanies
  rw [updateFirst, if_pos hc]

theorem recordCompanies_cons_ne (domain : String) (f : Company → Company)
    (entry c : Company) (rest : List Company) (hc : ¬ c.domain = domain) :
    recordCompanies domain f entry (c :: rest) =
      c :: recordCompanies domain f entry rest := by
  unfold recordCompanies
  rw [updateFirst, if_neg hc]
  cases hrest : updateFirst domain f rest with
  | some cs => simp [hrest]
  | none => simp [hrest]

theorem findCompany_recordCompanies_found (domain : String)
    (f : Company → Company) (entry : Company)
    (hf : ∀ c, (f c).domain = c.domain) :
    ∀ (l : List Company) (c : Company), findCompany domain l = some c →
      findCompany domain (recordCompanies domain f entry l) = some (f c) := by
  intro l
  induction l with
  | nil => intro c h; simp [findCompany] at h
  | cons c0 rest ih =>
    intro c h
    by_cases hc : c0.domain = domain
    · rw [findCompany, if_pos hc] at h
      cases h
      rw [recordCompanies_cons_eq domain f entry c0 rest hc,
        findCompany, if_pos (by rw [hf c0]; exact hc)]
    · rw [findCompany, if_neg hc] at h
      rw [recordCompanies_cons_ne domain f entry c0 rest hc,
        findCompany, if_neg hc]
      exact ih c h

theorem findCompany_recordCompanies_new (domain : String)
    (f : Company → Company) (entry : Company) (he : entry.domain = domain) :
    ∀ l : List Company, findCompany domain l = none →
      findCompany domain (recordCompanies domain f entry l) = some entry := by
  intro l
  induction l with
  | nil => simp [recordCompanies, updateFirst, findCompany, he]
  | cons c0 rest ih =>
    intro h
    by_cases hc : c0.domain = domain
    · rw [findCompany, if_pos hc] at h
      cases h
    · rw [findCompany, if_neg hc] at h
      rw [recordCompanies_cons_ne domain f entry c0 rest hc,
        findCompany, if_neg hc]
      exact ih h

theorem findCompany_none_of_all (domain : String) :
    ∀ l : List Company, (l.all fun c => c.domain != domain) = true →
      findCompany domain l = none := by
  intro l
  induction l with
  | nil => intro _; rfl
  | cons c rest ih =>
    intro h
    rw [List.all_cons, Bool.and_eq_true] at h
    rw [findCompany, if_neg (by simpa [bne_iff_ne] using h.1)]
    exact ih h.2

theorem mkSignalRecords_length (scan_type : String) (now : Int)
    (signals : List SigDict) :
    (mkSignalRecords scan_type now signals).length = signals.length := by
  by_cases h : scan_type = "prospect" <;> simp [mkSignalRecords, h]

theorem should_scan_eq_of_find (domain : String) (db : Db)
    (scan_type : String) (now : Int) (c : Company)
    (h : findCompany domain db.companies = some c) :
    should_scan domain db scan_type now =
      match tsGet scan_type c with
      | none => true
      | some last =>
        decide (now - last ≥ RESCAN_COOLDOWN_HOURS * 3600) := by
  unfold should_scan
  rw [h]

theorem should_scan_eq_of_none (domain : String) (db : Db)
    (scan_type : String) (now : Int)
    (h : findCompany domain db.companies = none) :
    should_scan domain db scan_type now = true := by
  unfold should_scan
  rw [h]

/-! ### Claims C6, C7 -/

/-- C6: `should_scan` returns true for a domain with no record in the store,
and false when evaluated after `record_scan` for the same domain and scan
type at any instant less than the 24-hour cooldown later (in particular
immediately after, at the same instant). -/
theorem should_scan_cooldown (domain name : String) (signals : List SigDict)
    (db : Db) (scan_type : String) (now : Int) :
    ((db.companies.all fun c => c.domain != domain) = true →
      should_scan domain db scan_type now = true)
    ∧ ∀ now2 : Int, now2 - now < RESCAN_COOLDOWN_HOURS * 3600 →
      should_scan domain (record_scan domain name signals db scan_type now)
        scan_type now2 = false := by
  constructor
  · intro h
    unfold should_scan
    rw [findCompany_none_of_all domain db.companies h]
  · intro now2 hlt
    have hnot : ¬ (now2 - now ≥ RESCAN_COOLDOWN_HOURS * 3600) :=
      not_le.mpr hlt
    have hf : ∀ c, (updateCompany scan_type now signals
        (mkSignalRecords scan_type now signals) c).domain = c.domain :=
      fun c => (updateCompany_fields scan_type now signals _ c).2.2.1
    cases hfind : findCompany domain db.companies with
    | some c =>
      have h1 : findCompany domain
          (record_scan domain name signals db scan_type now).companies =
          some (updateCompany scan_type now signals
            (mkSignalRecords scan_type now signals) c) :=
        findCompany_recordCompanies_found domain _ _ hf db.companies c hfind
      rw [should_scan_eq_of_find domain _ scan_type now2 _ h1,
        tsGet_updateCompany_same]
      exact decide_eq_false hnot
    | none =>
      have h1 : findCompany domain
          (record_scan domain name signals db scan_type now).companies =
          some (newCompany domain name scan_type now signals
            (mkSignalRecords scan_type now signals) db.companies.length) :=
        findCompany_recordCompanies_new domain _ _ rfl db.companies hfind
      rw [should_scan_eq_of_find domain _ scan_type now2 _ h1,
        tsGet_newCompany_same]
      exact decide_eq_false hnot

/-- C6 witness: on the empty store, `should_scan` is true for a fresh
domain, and false immediately after `record_scan` for it. -/
theorem should_scan_cooldown_witness :
    should_scan "acme.com" ⟨[]⟩ "hiring" 0 = true ∧
    should_scan "acme.com"
      (record_scan "acme.com" "Acme" [] ⟨[]⟩ "hiring" 0) "hiring" 0 =
      false :=
  ⟨(should_scan_cooldown "acme.com" "Acme" [] ⟨[]⟩ "hiring" 0).1 (by decide),
   (should_scan_cooldown "acme.com" "Acme" [] ⟨[]⟩ "hiring" 0).2 0
     (by decide)⟩

/-- C7: `record_scan` with scan type "hiring" leaves the domain's
prospect-scan timestamp unchanged and vice versa, so the other scan type's
`should_scan` answer (at any instant) is exactly what it was before the
call — in particular still true if that scan type was never recorded. -/
theorem independent_cooldowns (domain name : String)
    (signals : List SigDict) (db : Db) (now now2 : Int) :
    should_scan domain
      (record_scan domain name signals db "hiring" now) "prospect" now2 =
      should_scan domain db "prospect" now2
    ∧ should_scan domain
      (record_scan domain name signals db "prospect" now) "hiring" now2 =
      should_scan domain db "hiring" now2 := by
  constructor
  · have hf : ∀ c, (updateCompany "hiring" now signals
        (mkSignalRecords "hiring" now signals) c).domain = c.domain :=
      fun c => (updateCompany_fields "hiring" now signals _ c).2.2.1
    cases hfind : findCompany domain db.companies with
    | some c =>
      have h1 : findCompany domain
          (record_scan domain name signals db "hiring" now).companies =
          some (updateCompany "hiring" now signals
            (mkSignalRecords "hiring" now signals) c) :=
        findCompany_recordCompanies_found domain _ _ hf db.companies c hfind
      rw [should_scan_eq_of_find domain _ "prospect" now2 _ h1,
        should_scan_eq_of_find domain db "prospect" now2 c hfind,
        tsGet_prospect_update_hiring]
    | none =>
      have h1 : findCompany domain
          (record_scan domain name signals db "hiring" now).companies =
          some (newCompany domain name "hiring" now signals
            (mkSignalRecords "hiring" now signals) db.companies.length) :=
        findCompany_recordCompanies_new domain _ _ rfl db.companies hfind
      rw [should_scan_eq_of_find domain _ "prospect" now2 _ h1,
        should_scan_eq_of_none domain db "prospect" now2 hfind,
        tsGet_prospect_new_hiring]
  · have hf : ∀ c, (updateCompany "prospect" now signals
        (mkSignalRecords "prospect" now signals) c).domain = c.domain :=
      fun c => (updateCompany_fields "prospect" now signals _ c).2.2.1
    cases hfind : findCompany domain db.companies with
    | some c =>
      have h1 : findCompany domain
          (record_scan domain name signals db "prospect" now).companies =
          some (updateCompany "prospect" now signals
            (mkSignalRecords "prospect" now signals) c) :=
        findCompany_recordCompanies_found domain _ _ hf db.companies c hfind
      rw [should_scan_eq_of_find domain _ "hiring" now2 _ h1,
        should_scan_eq_of_find domain db "hiring" now2 c hfind,
        tsGet_hiring_update_prospect]
    | none =>
      have h1 : findCompany domain
          (record_scan domain name signals db "prospect" now).companies =
          some (newCompany domain name "prospect" now signals
            (mkSignalRecords "prospect" now signals) db.companies.length) :=
        findCompany_recordCompanies_new domain _ _ rfl db.companies hfind
      rw [should_scan_eq_of_find domain _ "hiring" now2 _ h1,
        should_scan_eq_of_none domain db "hiring" now2 hfind,
        tsGet_hiring_new_prospect]

/-! ### Claim C10 -/

theorem updateFirst_get (domain : String) (f : Company → Company) :
    ∀ (l cs : List Company), updateFirst domain f l = some cs →
      cs.length = l.length ∧
      ∀ i (h : i < l.length), ∃ h2 : i < cs.length,
        cs.get ⟨i, h2⟩ = l.get ⟨i, h⟩ ∨
        cs.get ⟨i, h2⟩ = f (l.get ⟨i, h⟩) := by
  intro l
  induction l with
  | nil => intro cs h; simp [updateFirst] at h
  | cons c rest ih =>
    intro cs h
    by_cases hc : c.domain = domain
    · rw [updateFirst, if_pos hc] at h
      cases h
      refine ⟨by simp, ?_⟩
      intro i hi
      cases i with
      | zero => exact ⟨by simp, Or.inr rfl⟩
      | succ j =>
        refine ⟨hi, Or.inl ?_⟩
        simp [List.get]
    · rw [updateFirst, if_neg hc] at h
      cases hrest : updateFirst domain f rest with
      | none => rw [hrest] at h; simp at h
      | some cs2 =>
        rw [hrest] at h
        simp only [Option.map_some'] at h
        cases h
        obtain ⟨hlen, hget⟩ := ih cs2 hrest
        refine ⟨by simp [hlen], ?_⟩
        intro i hi
        cases i with
        | zero => exact ⟨by simp, Or.inl rfl⟩
        | succ j =>
          have hj : j < rest.length := by simpa using hi
          obtain ⟨h2, hor⟩ := hget j hj
          refine ⟨by simpa using h2, ?_⟩
          simpa [List.get] using hor

/-- C10: `record_scan` deletes no record and rewrites no history entry:
every previously existing record is still present (at its index), with the
same id, name and domain, and its history list is extended only by
appending — by nothing, or by exactly the batch of new entries (one per
signal), the latter only when `signals` is non-empty. -/
theorem record_scan_preserves_history (domain name : String)
    (signals : List SigDict) (db : Db) (scan_type : String) (now : Int)
    (db2 : Db)
    (hdb : db2 = record_scan domain name signals db scan_type now) :
    db.companies.length ≤ db2.companies.length ∧
    (mkSignalRecords scan_type now signals).length = signals.length ∧
    ∀ i (h : i < db.companies.length), ∃ h2 : i < db2.companies.length,
      ∃ extra : List SignalRec,
        (db2.companies.get ⟨i, h2⟩).id = (db.companies.get ⟨i, h⟩).id ∧
        (db2.companies.get ⟨i, h2⟩).name = (db.companies.get ⟨i, h⟩).name ∧
        (db2.companies.get ⟨i, h2⟩).domain =
          (db.companies.get ⟨i, h⟩).domain ∧
        (db2.companies.get ⟨i, h2⟩).signals =
          (db.companies.get ⟨i, h⟩).signals ++ extra ∧
        (extra = [] ∨ extra = mkSignalRecords scan_type now signals) ∧
        (signals = [] → extra = []) := by
  subst hdb
  have hcomp : (record_scan domain name signals db scan_type now).companies =
      recordCompanies domain
        (updateCompany scan_type now signals
          (mkSignalRecords scan_type now signals))
        (newCompany domain name scan_type now signals
          (mkSignalRecords scan_type now signals) db.companies.length)
        db.companies := rfl
  rw [hcomp]
  cases hup : updateFirst domain
      (updateCompany scan_type now signals
        (mkSignalRecords scan_type now signals)) db.companies with
  | some cs =>
    have hcs : recordCompanies domain
        (updateCompany scan_type now signals
          (mkSignalRecords scan_type now signals))
        (newCompany domain name scan_type now signals
          (mkSignalRecords scan_type now signals) db.companies.length)
        db.companies = cs := by
      unfold recordCompanies
      rw [hup]
    rw [hcs]
    obtain ⟨hlen, hget⟩ := updateFirst_get domain _ db.companies cs hup
    refine ⟨by omega, mkSignalRecords_length scan_type now signals, ?_⟩
    intro i h
    obtain ⟨h2, hor⟩ := hget i h
    rcases hor with heq | heq
    · refine ⟨h2, [], ?_⟩
      rw [heq]
      simp
    · refine ⟨h2, if signals.isEmpty then [] else
        mkSignalRecords scan_type now signals, ?_⟩
      obtain ⟨f1, f2, f3, f4⟩ := updateCompany_fields scan_type now signals
        (mkSignalRecords scan_type now signals)
        (db.companies.get ⟨i, h⟩)
      rw [heq, f1, f2, f3, f4]
      refine ⟨rfl, rfl, rfl, rfl, ?_, ?_⟩
      · by_cases hse : signals.isEmpty <;> simp [hse]
      · intro hnil
        simp [hnil]
  | none =>
    have hcs : recordCompanies domain
        (updateCompany scan_type now signals
          (mkSignalRecords scan_type now signals))
        (newCompany domain name scan_type now signals
          (mkSignalRecords scan_type now signals) db.companies.length)
        db.companies = db.companies ++
        [newCompany domain name scan_type now signals
          (mkSignalRecords scan_type now signals) db.companies.length] := by
      unfold recordCompanies
      rw [hup]
    rw [hcs]
    refine ⟨by simp, mkSignalRecords_length scan_type now signals, ?_⟩
    intro i h
    have h2 : i < (db.companies ++
        [newCompany domain name scan_type now signals
          (mkSignalRecords scan_type now signals)
          db.companies.length]).length := by
      simp
      omega
    refine ⟨h2, [], ?_⟩
    simp [List.getElem_append, h]

/-- C10 witness: recording a prospect scan with one signal on a one-record
store keeps the existing record and appends exactly the new entries. -/
theorem record_scan_preserves_history_witness :
    (Db.mk [⟨"c_001", "Acme", "acme.com", none, none, "no_signal",
      []⟩]).companies.length ≤
      (record_scan "acme.com" "Acme"
        [⟨none, none, some "new_model", some "Acme unveils X", none⟩]
        (Db.mk [⟨"c_001", "Acme", "acme.com", none, none, "no_signal", []⟩])
        "prospect" 86400).companies.length ∧
    ∃ h2 : 0 < (record_scan "acme.com" "Acme"
        [⟨none, none, some "new_model", some "Acme unveils X", none⟩]
        (Db.mk [⟨"c_001", "Acme", "acme.com", none, none, "no_signal", []⟩])
        "prospect" 86400).companies.length,
      ∃ extra : List SignalRec,
        ((record_scan "acme.com" "Acme"
          [⟨none, none, some "new_model", some "Acme unveils X", none⟩]
          (Db.mk [⟨"c_001", "Acme", "acme.com", none, none, "no_signal", []⟩])
          "prospect" 86400).companies.get ⟨0, h2⟩).signals =
        [] ++ extra ∧
        (extra = [] ∨ extra = mkSignalRecords "prospect" 86400
          [⟨none, none, some "new_model", some "Acme unveils X", none⟩]) := by
  obtain ⟨ha, _, hc⟩ := record_scan_preserves_history "acme.com" "Acme"
    [⟨none, none, some "new_model", some "Acme unveils X", none⟩]
    (Db.mk [⟨"c_001", "Acme", "acme.com", none, none, "no_signal", []⟩])
    "prospect" 86400 _ rfl
  obtain ⟨h2, extra, _, _, _, hsig, hor, _⟩ := hc 0 (by decide)
  exact ⟨ha, h2, extra, hsig, hor⟩

/-! ### Helper lemmas on the dedup and diversity cap -/

theorem diversitySplit_perm (seen : List String) :
    ∀ l : List ProspectSignal,
      List.Perm ((diversitySplit seen l).1 ++ (diversitySplit seen l).2)
        l := by
  intro l
  induction l generalizing seen with
  | nil => simp [diversitySplit]
  | cons s rest ih =>
    by_cases hm : s.category ∈ seen
    · have hsp := ih seen
      simp only [diversitySplit, if_pos hm]
      cases hd : diversitySplit seen rest with
      | mk d r =>
        rw [hd] at hsp
        simp only at hsp ⊢
        exact List.Perm.trans List.perm_middle (hsp.cons s)
    · have hsp := ih (s.category :: seen)
      simp only [diversitySplit, if_neg hm]
      cases hd : diversitySplit (s.category :: seen) rest with
      | mk d r =>
        rw [hd] at hsp
        simp only at hsp ⊢
        exact hsp.cons s

theorem diversitySplit_left_cats (seen : List String) :
    ∀ l : List ProspectSignal,
      ((diversitySplit seen l).1.map (fun s => s.category)).Nodup ∧
      ∀ x ∈ (diversitySplit seen l).1.map (fun s => s.category),
        x ∉ seen := by
  intro l
  induction l generalizing seen with
  | nil => simp [diversitySplit]
  | cons s rest ih =>
    by_cases hm : s.category ∈ seen
    · simpa [diversitySplit, if_pos hm] using ih seen
    · obtain ⟨ihn, ihs⟩ := ih (s.category :: seen)
      simp only [diversitySplit, if_neg hm]
      cases hd : diversitySplit (s.category :: seen) rest with
      | mk d r =>
        rw [hd] at ihn ihs
        simp only at ihn ihs ⊢
        constructor
        · rw [List.map_cons, List.nodup_cons]
          refine ⟨fun hmem => ?_, ihn⟩
          exact (ihs s.category hmem) (List.mem_cons_self _ _)
        · intro x hx
          rcases List.mem_cons.mp hx with rfl | hx2
          · exact hm
          · exact fun hxs =>
              (ihs x hx2) (List.mem_cons_of_mem _ hxs)

theorem diversitySplit_left_mem (seen : List String) :
    ∀ (l : List ProspectSignal) (cat : String),
      cat ∈ l.map (fun s => s.category) → cat ∉ seen →
      cat ∈ (diversitySplit seen l).1.map (fun s => s.category) := by
  intro l
  induction l generalizing seen with
  | nil => intro cat h; simp at h
  | cons s rest ih =>
    intro cat hmem hns
    rcases List.mem_cons.mp hmem with heq | htail
    · by_cases hm : s.category ∈ seen
      · rw [heq] at hns
        exact absurd hm hns
      · simp only [diversitySplit, if_neg hm]
        cases hd : diversitySplit (s.category :: seen) rest with
        | mk d r => simp [heq]
    · by_cases hm : s.category ∈ seen
      · simp only [diversitySplit, if_pos hm]
        cases hd : diversitySplit seen rest with
        | mk d r =>
          have hr := ih seen cat htail hns
          rw [hd] at hr
          simpa using hr
      · by_cases hcat : cat = s.category
        · simp only [diversitySplit, if_neg hm]
          cases hd : diversitySplit (s.category :: seen) rest with
          | mk d r => simp [hcat]
        · simp only [diversitySplit, if_neg hm]
          cases hd : diversitySplit (s.category :: seen) rest with
          | mk d r =>
            have hns2 : cat ∉ s.category :: seen := by
              intro hx
              rcases List.mem_cons.mp hx with h1 | h1
              · exact hcat h1
              · exact hns h1
            have hr := ih (s.category :: seen) cat htail hns2
            rw [hd] at hr
            simp only at hr ⊢
            exact List.mem_cons_of_mem _ hr

theorem dedupByHeadline_nodup (seen : List (List Char)) :
    ∀ l : List ProspectSignal,
      ((dedupByHeadline seen l).map (fun s => s.headline)).Nodup ∧
      ∀ x ∈ (dedupByHeadline seen l).map (fun s => s.headline),
        x ∉ seen := by
  intro l
  induction l generalizing seen with
  | nil => simp [dedupByHeadline]
  | cons s rest ih =>
    by_cases hm : s.headline ∈ seen
    · simpa [dedupByHeadline, if_pos hm] using ih seen
    · obtain ⟨ihn, ihs⟩ := ih (s.headline :: seen)
      simp only [dedupByHeadline, if_neg hm]
      constructor
      · rw [List.map_cons, List.nodup_cons]
        refine ⟨fun hmem => ?_, ihn⟩
        exact (ihs s.headline hmem) (List.mem_cons_self _ _)
      · intro x hx
        rcases List.mem_cons.mp hx with rfl | hx2
        · exact hm
        · exact fun hxs => (ihs x hx2) (List.mem_cons_of_mem _ hxs)

theorem dedupByHeadline_fixed (seen : List (List Char)) :
    ∀ l : List ProspectSignal,
      (l.map (fun s => s.headline)).Nodup →
      (∀ x ∈ l.map (fun s => s.headline), x ∉ seen) →
      dedupByHeadline seen l = l := by
  intro l
  induction l generalizing seen with
  | nil => intro _ _; rfl
  | cons s rest ih =>
    intro hnd hns
    rw [List.map_cons, List.nodup_cons] at hnd
    have hm : s.headline ∉ seen :=
      hns s.headline (List.mem_cons_self _ _)
    rw [dedupByHeadline, if_neg hm]
    congr 1
    refine ih (s.headline :: seen) hnd.2 ?_
    intro x hx hmem
    rcases List.mem_cons.mp hmem with h1 | h1
    · rw [h1] at hx
      exact hnd.1 hx
    · exact hns x (List.mem_cons_of_mem _ hx) h1

theorem reduceSignals_eq_over (signals : List ProspectSignal)
    (max_count : Nat)
    (h : max_count < (dedupByHeadline [] signals).length) :
    reduceSignals signals max_count =
      ((diversitySplit [] (dedupByHeadline [] signals)).1 ++
       (diversitySplit [] (dedupByHeadline [] signals)).2).take
        max_count := by
  unfold reduceSignals
  rw [if_pos h]

theorem reduceSignals_eq_under (signals : List ProspectSignal)
    (max_count : Nat)
    (h : ¬ max_count < (dedupByHeadline [] signals).length) :
    reduceSignals signals max_count = dedupByHeadline [] signals := by
  unfold reduceSignals
  rw [if_neg h]

/-! ### Claims C5, C9 -/

/-- C5: after deduplication by headline, if the deduplicated count exceeds
`max_count` the output is the concatenation of the diverse list (first
signal of each distinct category, in encounter order) and the remaining
list, truncated to exactly `max_count` entries; whenever the number of
distinct categories fits in `max_count` (as with categories A,A,A,B,C and
`max_count` 3) every represented category appears in the output; and below
threshold the output is the deduplicated input unchanged. -/
theorem reduce_cap_diversity (signals : List ProspectSignal)
    (max_count : Nat) :
    (max_count < (dedupByHeadline [] signals).length →
      reduceSignals signals max_count =
        ((diversitySplit [] (dedupByHeadline [] signals)).1 ++
         (diversitySplit [] (dedupByHeadline [] signals)).2).take max_count
      ∧ (reduceSignals signals max_count).length = max_count)
    ∧ ((dedupByHeadline [] signals).length ≤ max_count →
      reduceSignals signals max_count = dedupByHeadline [] signals)
    ∧ (((dedupByHeadline [] signals).map
          (fun s => s.category)).dedup.length ≤ max_count →
      ∀ cat ∈ (dedupByHeadline [] signals).map (fun s => s.category),
        cat ∈ (reduceSignals signals max_count).map
          (fun s => s.category)) := by
  refine ⟨?_, ?_, ?_⟩
  · intro h
    have heq := reduceSignals_eq_over signals max_count h
    refine ⟨heq, ?_⟩
    rw [heq, List.length_take]
    have hperm := diversitySplit_perm [] (dedupByHeadline [] signals)
    have hlen := hperm.length_eq
    rw [hlen]
    omega
  · intro h
    exact reduceSignals_eq_under signals max_count (not_lt.mpr h)
  · intro hdistinct cat hcat
    by_cases hover : max_count < (dedupByHeadline [] signals).length
    · have hmemd : cat ∈ (diversitySplit []
          (dedupByHeadline [] signals)).1.map (fun s => s.category) :=
        diversitySplit_left_mem [] (dedupByHeadline [] signals) cat hcat
          (by simp)
      have hsub : (diversitySplit []
          (dedupByHeadline [] signals)).1.map (fun s => s.category) ⊆
          ((dedupByHeadline [] signals).map (fun s => s.category)).dedup := by
        intro x hx
        rw [List.mem_dedup]
        have hx2 : x ∈ ((diversitySplit [] (dedupByHeadline [] signals)).1
            ++ (diversitySplit [] (dedupByHeadline [] signals)).2).map
            (fun s => s.category) := by
          rw [List.map_append]
          exact List.mem_append_left _ hx
        exact ((diversitySplit_perm [] (dedupByHeadline [] signals)).map
          (fun s => s.category)).mem_iff.mp hx2
      have hndup := (diversitySplit_left_cats []
        (dedupByHeadline [] signals)).1
      have hlen_d : (diversitySplit []
          (dedupByHeadline [] signals)).1.length ≤ max_count := by
        have h1 := (hndup.subperm hsub).length_le
        rw [List.length_map] at h1
        omega
      rw [reduceSignals_eq_over signals max_count hover,
        List.take_append_eq_append_take,
        List.take_of_length_le hlen_d, List.map_append]
      exact List.mem_append_left _ hmemd
    · rw [reduceSignals_eq_under signals max_count hover]
      exact hcat

/-- C5 witness: on five distinct-headline signals with categories
A,A,A,B,C and cap 3, the output has exactly 3 entries and still contains
category B; with cap 10 the cap is a no-op. -/
theorem reduce_cap_diversity_witness :
    (reduceSignals
      [⟨"A", "h1".toList, "s".toList, "u"⟩,
       ⟨"A", "h2".toList, "s".toList, "u"⟩,
       ⟨"A", "h3".toList, "s".toList, "u"⟩,
       ⟨"B", "h4".toList, "s".toList, "u"⟩,
       ⟨"C", "h5".toList, "s".toList, "u"⟩] 3).length = 3 ∧
    "B" ∈ (reduceSignals
      [⟨"A", "h1".toList, "s".toList, "u"⟩,
       ⟨"A", "h2".toList, "s".toList, "u"⟩,
       ⟨"A", "h3".toList, "s".toList, "u"⟩,
       ⟨"B", "h4".toList, "s".toList, "u"⟩,
       ⟨"C", "h5".toList, "s".toList, "u"⟩] 3).map
      (fun s => s.category) ∧
    reduceSignals
      [⟨"A", "h1".toList, "s".toList, "u"⟩,
       ⟨"A", "h2".toList, "s".toList, "u"⟩,
       ⟨"A", "h3".toList, "s".toList, "u"⟩,
       ⟨"B", "h4".toList, "s".toList, "u"⟩,
       ⟨"C", "h5".toList, "s".toList, "u"⟩] 10 =
    dedupByHeadline []
      [⟨"A", "h1".toList, "s".toList, "u"⟩,
       ⟨"A", "h2".toList, "s".toList, "u"⟩,
       ⟨"A", "h3".toList, "s".toList, "u"⟩,
       ⟨"B", "h4".toList, "s".toList, "u"⟩,
       ⟨"C", "h5".toList, "s".toList, "u"⟩] :=
  ⟨((reduce_cap_diversity
      [⟨"A", "h1".toList, "s".toList, "u"⟩,
       ⟨"A", "h2".toList, "s".toList, "u"⟩,
       ⟨"A", "h3".toList, "s".toList, "u"⟩,
       ⟨"B", "h4".toList, "s".toList, "u"⟩,
       ⟨"C", "h5".toList, "s".toList, "u"⟩] 3).1 (by decide)).2,
   (reduce_cap_diversity
      [⟨"A", "h1".toList, "s".toList, "u"⟩,
       ⟨"A", "h2".toList, "s".toList, "u"⟩,
       ⟨"A", "h3".toList, "s".toList, "u"⟩,
       ⟨"B", "h4".toList, "s".toList, "u"⟩,
       ⟨"C", "h5".toList, "s".toList, "u"⟩] 3).2.2 (by decide) "B"
     (by decide),
   (reduce_cap_diversity
      [⟨"A", "h1".toList, "s".toList, "u"⟩,
       ⟨"A", "h2".toList, "s".toList, "u"⟩,
       ⟨"A", "h3".toList, "s".toList, "u"⟩,
       ⟨"B", "h4".toList, "s".toList, "u"⟩,
       ⟨"C", "h5".toList, "s".toList, "u"⟩] 10).2.1 (by decide)⟩

/-- C9: the reduce operation (dedup by headline, then diversity cap) is
idempotent — applying it to its own output returns that output
unchanged. -/
theorem reduce_idempotent (signals : List ProspectSignal)
    (max_count : Nat) :
    reduceSignals (reduceSignals signals max_count) max_count =
      reduceSignals signals max_count := by
  have hnd : ((reduceSignals signals max_count).map
      (fun s => s.headline)).Nodup := by
    by_cases hover : max_count < (dedupByHeadline [] signals).length
    · rw [reduceSignals_eq_over signals max_count hover]
      have hperm := (diversitySplit_perm []
        (dedupByHeadline [] signals)).map (fun s => s.headline)
      have hd := (dedupByHeadline_nodup [] signals).1
      have happ : (((diversitySplit [] (dedupByHeadline [] signals)).1 ++
          (diversitySplit [] (dedupByHeadline [] signals)).2).map
          (fun s => s.headline)).Nodup := hperm.nodup_iff.mpr hd
      have hsub : ((((diversitySplit [] (dedupByHeadline [] signals)).1 ++
          (diversitySplit [] (dedupByHeadline [] signals)).2).take
          max_count).map (fun s => s.headline)).Sublist
          (((diversitySplit [] (dedupByHeadline [] signals)).1 ++
          (diversitySplit [] (dedupByHeadline [] signals)).2).map
          (fun s => s.headline)) :=
        List.Sublist.map (fun (s : ProspectSignal) => s.headline)
          (List.take_sublist max_count
            ((diversitySplit [] (dedupByHeadline [] signals)).1 ++
             (diversitySplit [] (dedupByHeadline [] signals)).2))
      exact happ.sublist hsub
    · rw [reduceSignals_eq_under signals max_count hover]
      exact (dedupByHeadline_nodup [] signals).1
  have hlen : (reduceSignals signals max_count).length ≤ max_count := by
    by_cases hover : max_count < (dedupByHeadline [] signals).length
    · rw [reduceSignals_eq_over signals max_count hover, List.length_take]
      omega
    · rw [reduceSignals_eq_under signals max_count hover]
      omega
  have hfix : dedupByHeadline [] (reduceSignals signals max_count) =
      reduceSignals signals max_count :=
    dedupByHeadline_fixed [] _ hnd (by intro x _; simp)
  have hcond : ¬ max_count <
      (dedupByHeadline [] (reduceSignals signals max_count)).length := by
    rw [hfix]
    exact not_lt.mpr hlen
  rw [reduceSignals_eq_under _ _ hcond, hfix]

/-! ### Helper lemmas on the prospector -/

theorem scanKeywords_some (news_url : String) (stripped : List Char) :
    ∀ (kws : List (String × String)) (seen : List (List Char))
      (s : ProspectSignal) (seen2 : List (List Char)),
      scanKeywords news_url stripped seen kws = (some s, seen2) →
      s.snippet = stripped.take 300 ∧ s.source_url = news_url := by
  intro kws
  induction kws with
  | nil => intro seen s seen2 h; simp [scanKeywords] at h
  | cons p rest ih =>
    obtain ⟨kw, cat⟩ := p
    intro seen s seen2 h
    simp only [scanKeywords] at h
    by_cases h1 : containsCI kw stripped = true
    · rw [if_pos h1] at h
      by_cases h2 : stripped.take 150 ∈ seen
      · rw [if_pos h2] at h
        exact ih seen s seen2 h
      · rw [if_neg h2] at h
        cases h
        exact ⟨rfl, rfl⟩
    · rw [if_neg h1] at h
      exact ih seen s seen2 h

theorem mem_scrapeLines (news_url : String) :
    ∀ (lines : List (List Char)) (seen : List (List Char))
      (s : ProspectSignal), s ∈ scrapeLines news_url seen lines →
      ∃ line : List Char, s.snippet = (pyStrip line).take 300 ∧
        25 ≤ (pyStrip line).length ∧ s.source_url = news_url := by
  intro lines
  induction lines with
  | nil => intro seen s h; simp [scrapeLines] at h
  | cons line rest ih =>
    intro seen s h
    simp only [scrapeLines] at h
    by_cases hg : pyStrip line = [] ∨ (pyStrip line).length < 25
    · rw [if_pos hg] at h
      exact ih seen s h
    · rw [if_neg hg] at h
      by_cases ht : isTagList (pyStrip line) = true
      · rw [if_pos ht] at h
        exact ih seen s h
      · rw [if_neg ht] at h
        by_cases hem : hasEmissionPattern (pyStrip line) = true
        · rw [if_pos hem] at h
          exact ih seen s h
        · rw [if_neg hem] at h
          by_cases hch : isChrome (pyStrip line) = true
          · rw [if_pos hch] at h
            exact ih seen s h
          · rw [if_neg hch] at h
            have h25 : 25 ≤ (pyStrip line).length := by
              rcases Nat.lt_or_ge (pyStrip line).length 25 with hlt | hge
              · exact absurd (Or.inr hlt) hg
              · exact hge
            cases hscan : scanKeywords news_url (pyStrip line) seen
                NEWS_PAGE_KEYWORDS with
            | mk os seen2 =>
              cases os with
              | some s0 =>
                simp only [hscan] at h
                rcases List.mem_cons.mp h with heq | hmem
                · rw [← heq] at hscan
                  obtain ⟨hsnip, hurl⟩ := scanKeywords_some news_url
                    (pyStrip line) NEWS_PAGE_KEYWORDS seen s seen2 hscan
                  exact ⟨line, hsnip, h25, hurl⟩
                · exact ih seen2 s hmem
              | none =>
                simp only [hscan] at h
                exact ih seen2 s h

theorem prospect_company_snippet_le
    (provider : String → Except String (List BraveItem))
    (company domain : String) (categories : Option (List String))
    (api_key : Option String) (s : ProspectSignal)
    (hs : s ∈ (prospect_company provider company domain categories
      api_key).signals) : s.snippet.length ≤ 300 := by
  cases api_key with
  | none => simp [prospect_company] at hs
  | some k =>
    simp only [prospect_company] at hs
    rw [List.mem_flatMap] at hs
    obtain ⟨cat, _, hmem⟩ := hs
    cases hl : List.lookup cat PROSPECT_CATEGORIES with
    | none => simp only [hl] at hmem; simp at hmem
    | some template =>
      simp only [hl] at hmem
      by_cases he : template = ""
      · rw [if_pos he] at hmem
        simp at hmem
      · rw [if_neg he] at hmem
        cases hp : provider (template.replace "{company}" company) with
        | error e => simp only [hp] at hmem; simp at hmem
        | ok items =>
          simp only [hp] at hmem
          unfold braveSignalsFor at hmem
          obtain ⟨item, _, hitem⟩ := List.mem_filterMap.mp hmem
          by_cases hd : containsSub domain item.url.toList = true
          · rw [if_pos hd] at hitem
            cases hitem
          · rw [if_neg hd] at hitem
            cases hitem
            show (item.description.toList.take 300).length ≤ 300
            rw [List.length_take]
            omega

/-! ### Claim C8 -/

/-- C8 (counterexample): a Brave Search result with an empty description
(all result fields default to the empty string) produces a prospect signal
whose snippet is empty after trimming, violating the non-emptiness half of
the claimed invariant. -/
theorem brave_empty_snippet :
    ((prospect_company
        (fun _ => Except.ok [⟨"Acme raises", "", "https://news.example/a"⟩])
        "Acme" "acme.com" (some ["new_model"]) (some "key")).signals.all
      (fun s => !(pyStrip s.snippet).isEmpty)) = false := by decide

/-- C8 (amended): every hiring signal's `matched_text` has length at most
200 and is non-blank after trimming; every signal from `scrape_news_page`
has a snippet of length at most 300 that is non-empty after trimming and
carries exactly the configured page URL as its one source; every signal
from `prospect_company` has a snippet of length at most 300 (but, unlike
the news-scrape path, its snippet may be empty when the search result's
description is empty). -/
theorem signal_text_invariants :
    (∀ (text url company : String) (keywords : Option (List String))
      (s : Signal), s ∈ (analyze_text text url company keywords).signals →
      s.matched_text.length ≤ 200 ∧ pyStrip s.matched_text ≠ [])
    ∧ (∀ (fetched : Except String String)
      (company domain news_url : String) (s : ProspectSignal),
      s ∈ (scrape_news_page fetched company domain news_url).signals →
      s.snippet.length ≤ 300 ∧ pyStrip s.snippet ≠ [] ∧
      s.source_url = news_url)
    ∧ (∀ (provider : String → Except String (List BraveItem))
      (company domain : String) (categories : Option (List String))
      (api_key : Option String) (s : ProspectSignal),
      s ∈ (prospect_company provider company domain categories
        api_key).signals → s.snippet.length ≤ 300) := by
  refine ⟨?_, ?_, ?_⟩
  · intro text url company keywords s hs
    obtain ⟨p, _, _, hmt, hne, _, _⟩ :=
      mem_analyzeLines (keywordsOrDefault keywords)
        (pyEnumerate 1 (pySplitlines text)) s hs
    constructor
    · rw [hmt, List.length_take]
      omega
    · rw [hmt]
      exact pyStrip_take_ne_nil p.2 200 (by omega) hne
  · intro fetched company domain news_url s hs
    cases fetched with
    | error e => simp [scrape_news_page] at hs
    | ok text =>
      simp only [scrape_news_page] at hs
      obtain ⟨line, hsnip, hlen, hurl⟩ :=
        mem_scrapeLines news_url (pySplitlines text) [] s hs
      refine ⟨?_, ?_, hurl⟩
      · rw [hsnip, List.length_take]
        omega
      · rw [hsnip]
        refine pyStrip_take_ne_nil line 300 (by omega) ?_
        intro hnil
        rw [hnil] at hlen
        simp at hlen
  · intro provider company domain categories api_key s hs
    exact prospect_company_snippet_le provider company domain categories
      api_key s hs

/-- C8 witness: the invariant evaluated on concrete runs of all three
producers — a careers-page text, a fetched news page containing a recall
notice, and a Brave result with a non-empty description. -/
theorem signal_text_invariants_witness :
    (("Now hiring: VP".toList.take 200).length ≤ 200 ∧
      pyStrip ("Now hiring: VP".toList.take 200) ≠ []) ∧
    ((("This is a recall notice affecting vehicles".toList.take 300).length
        ≤ 300 ∧
      pyStrip ("This is a recall notice affecting vehicles".toList.take 300)
        ≠ [] ∧
      ("https://ex.example/news" : String) = "https://ex.example/news")) ∧
    ("D".toList.take 300).length ≤ 300 :=
  ⟨signal_text_invariants.1 "Now hiring: VP" "u" "c" none
    ⟨"VP", "Now hiring: VP".toList.take 200, 1⟩ (by decide),
   signal_text_invariants.2.1
    (Except.ok "This is a recall notice affecting vehicles") "Acme"
    "acme.com" "https://ex.example/news"
    ⟨"service_challenge",
     "This is a recall notice affecting vehicles".toList.take 150,
     "This is a recall notice affecting vehicles".toList.take 300,
     "https://ex.example/news"⟩ (by decide),
   signal_text_invariants.2.2
    (fun _ => Except.ok [⟨"T", "D", "https://n.example/x"⟩]) "Acme"
    "acme.com" (some ["new_model"]) (some "key")
    ⟨"new_model", "T".toList, "D".toList.take 300, "https://n.example/x"⟩
    (by decide)⟩

end SignalSDR
